import Mathlib

/-!
Verification of the census member-registry pipeline (`census.py`).

The Python source is shallowly embedded below: each Python function is
translated into a computable Lean definition of the same name, working on
`String` / `List Char`.  Fallible Python code (code that can raise
`ValueError`, `TypeError`, `IndexError` or fail an `assert`) is embedded
with an outer `Option`: `none` models the raised exception, `some v` the
normal return value `v` (which may itself be `Option _` when Python
returns `None` for "absent").

Unicode notes: the Python code uses `str.upper`, `str.lower`,
`str.casefold` and `unicodedata` NFD accent stripping.  These are embedded
as character tables covering ASCII plus the Swedish/Latin letters that
occur in this repository's vocabularies and data (ä å ö é and their upper
case forms); on every character outside the table the embedding is the
identity, like the Python functions on unmapped code points of interest.
-/

namespace Census

/-- Global constant `REPORTING_YEAR = '2019'` from the source. -/
def REPORTING_YEAR : String := "2019"

/-- Character-level model of Python `str.lower` / `str.casefold` for the
character set of this repository (ASCII plus Swedish letters). -/
def lowerChar (c : Char) : Char :=
  if c = 'Ä' then 'ä' else if c = 'Å' then 'å' else if c = 'Ö' then 'ö'
  else if c = 'É' then 'é' else c.toLower

/-- Character-level model of Python `str.upper` for the character set of
this repository (ASCII plus Swedish letters). -/
def upperChar (c : Char) : Char :=
  if c = 'ä' then 'Ä' else if c = 'å' then 'Å' else if c = 'ö' then 'Ö'
  else if c = 'é' then 'É' else c.toUpper

/-- Model of `str.upper`. -/
def pyUpper (s : String) : String := String.mk (s.data.map upperChar)

/-- Model of `str.lower` (also used for `str.casefold`, which coincides
with it on this character set). -/
def pyLower (s : String) : String := String.mk (s.data.map lowerChar)

/-- Character table modelling `strip_accents` (NFD decomposition followed
by removal of combining marks) on the letters occurring in this
repository's data; identity elsewhere. -/
def stripAccentChar (c : Char) : Char :=
  if c = 'ä' then 'a' else if c = 'å' then 'a' else if c = 'ö' then 'o'
  else if c = 'é' then 'e' else if c = 'ü' then 'u'
  else if c = 'Ä' then 'A' else if c = 'Å' then 'A' else if c = 'Ö' then 'O'
  else if c = 'É' then 'E' else if c = 'Ü' then 'U' else c

/-- `strip_accents(text)` from the source. -/
def strip_accents (s : String) : String := String.mk (s.data.map stripAccentChar)

/-- `str.casefold()` as used in the duplicate keys. -/
def casefold (s : String) : String := pyLower s

/-- Python `str(x)` applied to a value that is either a string or `None`. -/
def pyStr (o : Option String) : String := o.getD "None"

/-- Whitespace recognized by Python `str.strip()` (the subset relevant
here). -/
def isSpaceChar (c : Char) : Bool := c == ' ' || c == '\t' || c == '\n' || c == '\r'

/-- Model of Python `str.strip()`. -/
def pyStrip (s : String) : String :=
  String.mk (((s.data.dropWhile isSpaceChar).reverse.dropWhile isSpaceChar).reverse)

/-- Python `text.split(sep)` for a one-character separator: auxiliary
accumulator-based splitter (`cur` holds the current field reversed). -/
def splitAux (sep : Char) : List Char → List Char → List String
  | [], cur => [String.mk cur.reverse]
  | c :: cs, cur =>
    if c == sep then String.mk cur.reverse :: splitAux sep cs []
    else splitAux sep cs (c :: cur)

/-- Python `text.split(sep)` for a one-character separator. -/
def pySplit (s : String) (sep : Char) : List String := splitAux sep s.data []

/-- The separator class `[ . / -]` of the date regexes. -/
def isSep (c : Char) : Bool := c == ' ' || c == '.' || c == '/' || c == '-'

/-- One optional separator, `[ . / -]?`.  Because a separator character is
never a digit and every separator in the patterns is immediately followed
by a digit group, the regex alternative "do not consume the separator"
can never succeed when one is present, so the greedy `?` is
deterministic. -/
def skipSep : List Char → List Char
  | [] => []
  | c :: cs => if isSep c then cs else c :: cs

/-- `\d{n}`: exactly `n` digits, returning them and the rest. -/
def takeDigits : Nat → List Char → Option (List Char × List Char)
  | 0, cs => some ([], cs)
  | _ + 1, [] => none
  | n + 1, c :: cs =>
    if c.isDigit then (takeDigits n cs).map (fun p => (c :: p.1, p.2)) else none

/-- `parse_year(text)` from the source: 2-digit years are expanded with a
pivot at 50 (`int(text) > 50`); everything else passes through. -/
def toNatDigits (s : String) : Nat :=
  s.data.foldl (fun n c => n * 10 + (c.toNat - 48)) 0

/-- `parse_year(text)` from the source. -/
def parse_year (text : String) : String :=
  if text.length = 2 then
    if 50 < toNatDigits text then "19" ++ text else "20" ++ text
  else text

/-- Canonical birth-date tuple `(year, month, day, suffix)` as produced by
`parse_birth_date`; Python represents it as a 4-tuple whose last three
slots may be `None`. -/
structure BirthDate where
  year : String
  month : Option String
  day : Option String
  suffix : Option String
deriving DecidableEq, Repr

/-- Confirmation-date tuple `(year, month, day?)` as produced by
`parse_date`. -/
structure CDate where
  year : String
  month : String
  day : Option String
deriving DecidableEq, Repr

/-- `[ . / -]?(\d{2})[ . / -]?(\d{2})` — the month/day pair of the birth-date
regex. -/
def matchMD (cs : List Char) : Option (List Char × List Char × List Char) :=
  (takeDigits 2 (skipSep cs)).bind fun p =>
    (takeDigits 2 (skipSep p.2)).map fun q => (p.1, q.1, q.2)

/-- `(?:[ . / -]?(\d{4}))?$` with the suffix group taken: succeeds only when
the four digits are followed by the end of input. -/
def matchSuffixEnd (cs : List Char) : Option (List Char) :=
  (takeDigits 4 (skipSep cs)).bind fun p => if p.2 = [] then some p.1 else none

/-- The part of the birth-date regex after the year group:
`(?:[ . / -]?(\d{2})[ . / -]?(\d{2})(?:[ . / -]?(\d{4}))?)?$`, with the regex's
greedy preference order (take the optional groups when possible, fall
back to skipping them). -/
def matchTail (cs : List Char) :
    Option (Option (List Char) × Option (List Char) × Option (List Char)) :=
  match matchMD cs with
  | some (m, d, rest) =>
    match matchSuffixEnd rest with
    | some s => some (some m, some d, some s)
    | none => if rest = [] then some (some m, some d, none) else none
  | none => if cs = [] then some (none, none, none) else none

/-- One year-length alternative of the greedy `(\d{2,4})` year group of
the birth-date regex, followed by `matchTail` and assembly of the
result tuple (with `parse_year` applied to the year, as in the source). -/
def tryYearLen (n : Nat) (cs : List Char) : Option BirthDate :=
  (takeDigits n cs).bind fun p =>
    (matchTail p.2).map fun t =>
      ⟨parse_year (String.mk p.1), t.1.map String.mk, t.2.1.map String.mk,
        t.2.2.map String.mk⟩

/-- `parse_birth_date(text)` from the source.  Outer `none` models the
raised `ValueError('invalid birth date: ...')`; `some none` models the
Python return value `None` for the sentinels `''`, `'?'`, `'0'`.  The
greedy backtracking of `(\d{2,4})` is the 4-then-3-then-2 alternative
order. -/
def parse_birth_date (text : String) : Option (Option BirthDate) :=
  if text = "" ∨ text = "?" ∨ text = "0" then some none
  else
    match tryYearLen 4 text.data with
    | some bd => some (some bd)
    | none =>
      match tryYearLen 3 text.data with
      | some bd => some (some bd)
      | none =>
        match tryYearLen 2 text.data with
        | some bd => some (some bd)
        | none => none

/-- `format_birth_date(parts)` from the source. -/
def format_birth_date (parts : Option BirthDate) : String :=
  match parts with
  | none => ""
  | some bd =>
    if bd.suffix.isSome then
      bd.year ++ "-" ++ pyStr bd.month ++ "-" ++ pyStr bd.day ++ "-" ++ pyStr bd.suffix
    else if bd.month.isSome then
      bd.year ++ "-" ++ pyStr bd.month ++ "-" ++ pyStr bd.day
    else bd.year

/-- The part of the confirmation-date regex after the year group:
`[ . / -]?(\d{2})(?:[ . / -]?(\d{2}))?$`. -/
def matchDateTail (cs : List Char) : Option (List Char × Option (List Char)) :=
  (takeDigits 2 (skipSep cs)).bind fun p =>
    match (takeDigits 2 (skipSep p.2)).bind
        (fun q => if q.2 = [] then some q.1 else none) with
    | some d => some (p.1, some d)
    | none => if p.2 = [] then some (p.1, none) else none

/-- One year-length alternative for `parse_date`. -/
def tryDateLen (n : Nat) (cs : List Char) : Option CDate :=
  (takeDigits n cs).bind fun p =>
    (matchDateTail p.2).map fun t =>
      ⟨parse_year (String.mk p.1), String.mk t.1, t.2.map String.mk⟩

/-- `parse_date(text)` from the source (confirmation dates).  Outer
`none` models the raised `ValueError`; `some none` models `None` for
empty input. -/
def parse_date (text : String) : Option (Option CDate) :=
  if text = "" then some none
  else
    match tryDateLen 4 text.data with
    | some d => some (some d)
    | none =>
      match tryDateLen 3 text.data with
      | some d => some (some d)
      | none =>
        match tryDateLen 2 text.data with
        | some d => some (some d)
        | none => none

/-- `parse_gender(text)` from the source.  `some (some "K")` = Female,
`some (some "M")` = Male, `some none` = Python `None` (unknown), outer
`none` = the raised `ValueError('invalid gender: ...')`. -/
def parse_gender (text : String) : Option (Option String) :=
  let t := pyUpper text
  if t = "K" ∨ t = "F" ∨ t = "FEMALE" ∨ t = "KVINNA" ∨ t = "TJEJ" then
    some (some "K")
  else if t = "M" ∨ t = "MAN" ∨ t = "MALE" ∨ t = "KILLE" then
    some (some "M")
  else if t = "" ∨ t = "?" ∨ t = "EJ SVAR" ∨ t = "ANNAT" ∨ t = "UPPGIFT OKÄND" ∨
      t = "VILL EJ UPPGE" then
    some none
  else none

/-- `fudge_gender(birth_date)` from the source: looks at character index 2
of the suffix; `int()` of a non-digit raises, an out-of-range index
raises, both modelled by the outer `none`. -/
def fudge_gender (bd : BirthDate) : Option (Option String) :=
  match bd.suffix with
  | none => some none
  | some s =>
    match s.data.get? 2 with
    | none => none
    | some c =>
      if c.isDigit then
        some (some (if (c.toNat - 48) % 2 = 0 then "K" else "M"))
      else none

/-- `text.lower().replace(' ', '')` — the normalization step of
`normalize_postal_code`. -/
def normText (text : String) : String :=
  String.mk ((text.data.map lowerChar).filter (fun c => c != ' '))

/-- `normalize_postal_code(text)` from the source.  Outer `none` models
the raised `ValueError('invalid postal code: ...')`; `some none` the
Python `None` for the sentinel values. -/
def normalize_postal_code (text : String) : Option (Option String) :=
  let t := normText text
  if t = "" ∨ t = "-" ∨ t = "saknas" ∨ t = "vetej" then some none
  else if "skyddad".data.isPrefixOf t.data then some none
  else
    match takeDigits 5 t.data with
    | some p => some (some (String.mk p.1))
    | none => none

/-- `parse_groups(text)` from the source: `None` → `[]`, otherwise
`text.split(';')`. -/
def parse_groups (text : Option String) : List String :=
  match text with
  | some s => pySplit s ';'
  | none => []

/-- A loaded record (`row` dict with the parsed field values, in the
shape produced by `load`). -/
structure Record where
  first_name : String
  last_name : String
  birth_date : Option BirthDate
  gender : Option String
  address_co : String
  address_street : String
  address_postal_code : Option String
  email : String
  phone : String
  confirmed_membership_at : Option CDate
  groups : List String
  removal_cause : Option String
deriving DecidableEq, Repr

/-- One raw CSV row as handed to `load` by `csv.DictReader` (the
`groups` column may be `None` when a row is short; `removal_cause` is
never present in input). -/
structure RawRow where
  first_name : String
  last_name : String
  birth_date : String
  gender : String
  address_co : String
  address_street : String
  address_postal_code : String
  email : String
  phone : String
  confirmed_membership_at : String
  groups : Option String
deriving DecidableEq, Repr

/-- `clean_whitespace(row)` from the source: strip every non-`None`
value, then drop a single leading `':'` from the birth-date field. -/
def clean_whitespace (row : RawRow) : RawRow :=
  let bd := pyStrip row.birth_date
  { first_name := pyStrip row.first_name
    last_name := pyStrip row.last_name
    birth_date := match bd.data with
      | ':' :: rest => String.mk rest
      | _ => bd
    gender := pyStrip row.gender
    address_co := pyStrip row.address_co
    address_street := pyStrip row.address_street
    address_postal_code := pyStrip row.address_postal_code
    email := pyStrip row.email
    phone := pyStrip row.phone
    confirmed_membership_at := pyStrip row.confirmed_membership_at
    groups := row.groups.map pyStrip }

/-- The per-row body of `load(infile, group)` from the source: parse each
field, seed an empty group list with the default group, and fall back to
`fudge_gender` when gender is absent but a birth date is present.  `none`
models a parser exception aborting the load. -/
def loadRow (raw : RawRow) (group : Option String) : Option Record :=
  let row := clean_whitespace raw
  (parse_gender row.gender).bind fun g =>
  (parse_birth_date row.birth_date).bind fun bd =>
  (normalize_postal_code row.address_postal_code).bind fun pc =>
  (parse_date row.confirmed_membership_at).bind fun cd =>
  let gs := parse_groups row.groups
  let gs := if gs = [] then (match group with | some g0 => [g0] | none => gs) else gs
  let gFinal : Option (Option String) :=
    match g, bd with
    | none, some b => fudge_gender b
    | g1, _ => some g1
  gFinal.map fun g2 =>
    { first_name := row.first_name
      last_name := row.last_name
      birth_date := bd
      gender := g2
      address_co := row.address_co
      address_street := row.address_street
      address_postal_code := pc
      email := row.email
      phone := row.phone
      confirmed_membership_at := cd
      groups := gs
      removal_cause := none }

/-- `load(infile, group)` over a list of already-split raw rows:
fail-fast sequencing of `loadRow`. -/
def load (rows : List RawRow) (group : Option String) : Option (List Record) :=
  match rows with
  | [] => some []
  | r :: rest => (loadRow r group).bind fun rec0 =>
      (load rest group).map fun recs => rec0 :: recs

/-- The if/elif cause chain of `remove_invalid` from the source:
the reason the record is removed, or `none` when it is kept. -/
def removalCause (r : Record) : Option String :=
  match r.confirmed_membership_at with
  | none => some "confirmed_membership_at not given"
  | some c =>
    if c.year ≠ REPORTING_YEAR then
      some ("confirmed_membership_at is not " ++ REPORTING_YEAR)
    else if r.birth_date = none then some "birth_date not given"
    else if r.gender = none then some "gender not given"
    else if r.address_postal_code = none then some "address_postal_code not given"
    else if r.email = "" ∧ r.phone = "" then some "neither email nor phone given"
    else none

/-- `remove_invalid(rows)` from the source: one pass over the rows,
appending each row to `kept` or (with `removal_cause` set) to
`invalid`. -/
def remove_invalid (rows : List Record) : List Record × List Record :=
  rows.foldl
    (fun acc r =>
      match removalCause r with
      | none => (acc.1 ++ [r], acc.2)
      | some why => (acc.1, acc.2 ++ [{ r with removal_cause := some why }]))
    ([], [])

/-- The validator's checks in source priority order, as (test, reason)
pairs; the specification side of "first matching reason wins". -/
def validatorChecks : List ((Record → Bool) × String) :=
  [(fun r => r.confirmed_membership_at.isNone, "confirmed_membership_at not given"),
   (fun r => r.confirmed_membership_at.map CDate.year != some REPORTING_YEAR,
     "confirmed_membership_at is not " ++ REPORTING_YEAR),
   (fun r => r.birth_date.isNone, "birth_date not given"),
   (fun r => r.gender.isNone, "gender not given"),
   (fun r => r.address_postal_code.isNone, "address_postal_code not given"),
   (fun r => r.email == "" && r.phone == "", "neither email nor phone given")]

/-- First-match semantics over `validatorChecks`. -/
def firstFailedCheck (r : Record) : Option String :=
  (validatorChecks.find? fun p => p.1 r).map (fun p => p.2)

/-- The strict duplicate key of `remove_duplicates`:
`strip_accents(first).casefold() + ':' + strip_accents(last).casefold()
+ ':' + str(date[0]) + str(date[1]) + str(date[2]) + ':' + str(postal)`.
Indexing `date[0]` when `birth_date` is `None` raises in Python, so the
key is `none` exactly for records without a birth date. -/
def make_key (r : Record) : Option String :=
  match r.birth_date with
  | none => none
  | some d =>
    some (casefold (strip_accents r.first_name) ++ ":" ++
      casefold (strip_accents r.last_name) ++ ":" ++
      d.year ++ pyStr d.month ++ pyStr d.day ++ ":" ++
      pyStr r.address_postal_code)

/-- `rows_by_key[key].append(row)` on an insertion-ordered dict
represented as an association list: append to the existing entry's list,
or add a new entry at the end. -/
def groupInsert (acc : List (String × List Record)) (k : String) (r : Record) :
    List (String × List Record) :=
  match acc with
  | [] => [(k, [r])]
  | (k2, g) :: rest =>
    if k2 = k then (k2, g ++ [r]) :: rest else (k2, g) :: groupInsert rest k r

/-- The `rows_by_key` loop of `remove_duplicates`: group rows by
`make_key` into an insertion-ordered dict; `none` when some row's key
raises. -/
def buildGroups (acc : List (String × List Record)) :
    List Record → Option (List (String × List Record))
  | [] => some acc
  | r :: rest =>
    match make_key r with
    | none => none
    | some k => buildGroups (groupInsert acc k r) rest

/-- `if x not in acc: acc.append(x)` — the group-label collection step. -/
def seenInsert (acc : List String) (x : String) : List String :=
  if x ∈ acc then acc else acc ++ [x]

/-- First-seen-order deduplication of a list (iterated `seenInsert`). -/
def firstSeen (l : List String) : List String := l.foldl seenInsert []

/-- The nested group-collection loop of `remove_duplicates`: walk the
group's members and each member's labels, appending unseen labels. -/
def collectGroups (member : List Record) : List String :=
  member.foldl (fun gs single => single.groups.foldl seenInsert gs) []

/-- `remove_duplicates(rows)` from the source: group by the strict key,
emit one representative per group (the first member, its group list
replaced by the collected labels), and every member of each group of
size above one into `duplicates`. -/
def remove_duplicates (rows : List Record) :
    Option (List Record × List Record) :=
  (buildGroups [] rows).map fun pairs =>
    (pairs.filterMap fun p =>
        p.2.head?.map fun first => { first with groups := collectGroups p.2 },
      (pairs.filter fun p => 1 < p.2.length).flatMap fun p => p.2)

/-- `resides_in_stockholm(row)` from the source:
`row['address_postal_code'].startswith('1')`; calling it on an absent
postal code raises (outer `none`). -/
def resides_in_stockholm (r : Record) : Option Bool :=
  r.address_postal_code.map fun pc =>
    match pc.data with
    | c :: _ => c == '1'
    | [] => false

/-- `calculate_age(reporting_year, row)` from the source:
`int(reporting_year) - int(row['birth_date'][0])` with an assertion that
the result is non-negative; `none` models both the indexing error on an
absent birth date and the assertion failure. -/
def calculate_age (reporting_year : Nat) (r : Record) : Option Nat :=
  r.birth_date.bind fun bd =>
    let a : Int := (reporting_year : Int) - (toNatDigits bd.year : Int)
    if a < 0 then none else some a.toNat

/-- `is_eligable_for_grant(reporting_year, row)` from the source, with
Python's short-circuit `and`: when the age is out of range the postal
code is never inspected. -/
def is_eligable_for_grant (reporting_year : Nat) (r : Record) : Option Bool :=
  (calculate_age reporting_year r).bind fun a =>
    if 6 ≤ a ∧ a ≤ 25 then resides_in_stockholm r else some false

/-! ### Specification-side notions used to state the claims -/

/-- The text's first `n` characters exist and are digits (the meaning of
"starts with `n` digits"). -/
def StartsWithDigits (n : Nat) (t : String) : Prop :=
  n ≤ t.data.length ∧ ∀ c ∈ t.data.take n, c.isDigit = true

instance (n : Nat) (t : String) : Decidable (StartsWithDigits n t) := by
  unfold StartsWithDigits; infer_instance

/-- A string of exactly `n` decimal digits. -/
def DigitStr (n : Nat) (s : String) : Prop :=
  s.data.length = n ∧ ∀ c ∈ s.data, c.isDigit = true

instance (n : Nat) (s : String) : Decidable (DigitStr n s) := by
  unfold DigitStr; infer_instance

/-- The postal-code sentinels, after normalization. -/
def PostalSentinel (t : String) : Prop :=
  t = "" ∨ t = "-" ∨ t = "saknas" ∨ t = "vetej" ∨
    "skyddad".data.isPrefixOf t.data

instance (t : String) : Decidable (PostalSentinel t) := by
  unfold PostalSentinel; infer_instance

/-- A canonical birth-date value of one of the three claimed shapes:
year-only, year+month+day, or year+month+day+suffix, with a 4-digit
year, 2-digit month and day, and 4-digit suffix. -/
def CanonicalBD (bd : BirthDate) : Prop :=
  DigitStr 4 bd.year ∧
  ((bd.month = none ∧ bd.day = none ∧ bd.suffix = none) ∨
    (∃ m dd, bd.month = some m ∧ bd.day = some dd ∧ DigitStr 2 m ∧ DigitStr 2 dd ∧
      (bd.suffix = none ∨ ∃ s, bd.suffix = some s ∧ DigitStr 4 s)))

/-- The records of `rows` whose strict duplicate key is `k`, in input
order. -/
def grp (rows : List Record) (k : String) : List Record :=
  rows.filter fun r => make_key r = some k

/-- The strict keys of `rows` in first-seen order, duplicates removed. -/
def strictKeys (rows : List Record) : List String :=
  firstSeen (rows.filterMap make_key)

/-! ### Concrete example data -/

/-- A record with every validator field present (used as a base for the
concrete examples). -/
def baseRec : Record :=
  { first_name := "Anna"
    last_name := "Svensson"
    birth_date := some ⟨"1995", some "10", some "14", none⟩
    gender := some "K"
    address_co := ""
    address_street := "Storgatan 1"
    address_postal_code := some "12345"
    email := "anna@example.com"
    phone := ""
    confirmed_membership_at := some ⟨"2019", "01", none⟩
    groups := ["A"]
    removal_cause := none }

/-- First record of the duplicate-merge example: groups `['A']`. -/
def dupA : Record := baseRec

/-- Second record of the duplicate-merge example: same strict key
(name, birth date, postal code), disjoint groups `['B']`, different
street and contact fields. -/
def dupB : Record :=
  { baseRec with
    address_street := "Lillgatan 2"
    email := ""
    phone := "0701234567"
    groups := ["B"] }

/-- A record with an absent birth date (for the deduplicator
precondition claim). -/
def recNoBirth : Record := { baseRec with birth_date := none }

/-- A record missing both the confirmation date and the gender (for the
validator priority claim). -/
def recNoConfNoGender : Record :=
  { baseRec with confirmed_membership_at := none, gender := none }

/-- A minimal record with the given postal code and birth year (the
record shape of the eligibility examples). -/
def grantRow (postal : String) (year : String) : Record :=
  { baseRec with
    birth_date := some ⟨year, none, none, none⟩
    address_postal_code := some postal }

/-- A raw CSV row whose groups column contains a repeated label. -/
def c8row : RawRow :=
  { first_name := "X"
    last_name := "Y"
    birth_date := "1995"
    gender := "K"
    address_co := ""
    address_street := ""
    address_postal_code := "12345"
    email := "x@example.com"
    phone := ""
    confirmed_membership_at := "201901"
    groups := some "A;A" }

/-! ### Basic lemmas about the character-level matchers -/

theorem takeDigits_exact (l rest : List Char) (hd : ∀ c ∈ l, c.isDigit = true) :
    takeDigits l.length (l ++ rest) = some (l, rest) := by
  induction l with
  | nil => rfl
  | cons c cs ih =>
    have hc : c.isDigit = true := hd c (List.mem_cons_self c cs)
    have ih2 := ih fun x hx => hd x (List.mem_cons_of_mem c hx)
    simp [takeDigits, hc, ih2]

theorem takeDigits_some {n : Nat} {l ds rest : List Char}
    (h : takeDigits n l = some (ds, rest)) :
    ds.length = n ∧ (∀ c ∈ ds, c.isDigit = true) ∧ l = ds ++ rest := by
  induction n generalizing l ds rest with
  | zero =>
    simp [takeDigits] at h
    obtain ⟨rfl, rfl⟩ := h
    simp
  | succ n ih =>
    cases l with
    | nil => simp [takeDigits] at h
    | cons c cs =>
      by_cases hc : c.isDigit = true
      · rw [show takeDigits (n + 1) (c :: cs)
            = if c.isDigit then (takeDigits n cs).map (fun p => (c :: p.1, p.2))
              else none from rfl, if_pos hc] at h
        cases heq : takeDigits n cs with
        | none => rw [heq] at h; simp at h
        | some p =>
          rw [heq] at h
          simp only [Option.map_some'] at h
          injection h with h'
          cases h'
          obtain ⟨e1, e2, e3⟩ := ih heq
          refine ⟨by simp [e1], ?_, by simp [e3]⟩
          intro x hx
          rcases List.mem_cons.mp hx with rfl | hx
          · exact hc
          · exact e2 x hx
      · rw [show takeDigits (n + 1) (c :: cs)
            = if c.isDigit then (takeDigits n cs).map (fun p => (c :: p.1, p.2))
              else none from rfl, if_neg hc] at h
        simp at h

theorem takeDigits_of_start {n : Nat} {l : List Char} (h1 : n ≤ l.length)
    (h2 : ∀ c ∈ l.take n, c.isDigit = true) :
    takeDigits n l = some (l.take n, l.drop n) := by
  have hlen : (l.take n).length = n := by
    simp [List.length_take, Nat.min_eq_left h1]
  have := takeDigits_exact (l.take n) (l.drop n) h2
  rw [hlen, List.take_append_drop] at this
  exact this

theorem takeDigits_none {n : Nat} {l : List Char}
    (h : ¬(n ≤ l.length ∧ ∀ c ∈ l.take n, c.isDigit = true)) :
    takeDigits n l = none := by
  cases heq : takeDigits n l with
  | none => rfl
  | some p =>
    exfalso
    obtain ⟨ds, rest⟩ := p
    obtain ⟨h1, h2, h3⟩ := takeDigits_some heq
    apply h
    subst h3
    constructor
    · rw [← h1]; simp
    · intro c hc
      apply h2
      rw [← h1, List.take_left] at hc
      exact hc

theorem skipSep_dash (cs : List Char) : skipSep ('-' :: cs) = cs := rfl

theorem skipSep_digit {c : Char} (cs : List Char) (h : c.isDigit = true) :
    skipSep (c :: cs) = c :: cs := by
  have hns : isSep c = false := by
    cases hsep : isSep c
    · rfl
    · exfalso
      simp [isSep] at hsep
      rcases hsep with ((rfl | rfl) | rfl) | rfl <;> exact absurd h (by decide)
  simp [skipSep, hns]

/-! ### C7: gender from the national-ID suffix -/

/-- C7: for every birth date carrying a 4-digit national-ID suffix,
`fudge_gender` returns Female (`"K"`) when the suffix's second-to-last
digit (character index 2 of the 4) is even and Male (`"M"`) when it is
odd; for every birth date without a suffix it returns Unknown (Python
`None`).  Concretely, suffix `3285` gives Female and `0055` gives
Male. -/
theorem C7_fudge_gender_parity :
    (∀ (bd : BirthDate) (s : String) (c : Char), bd.suffix = some s →
      s.data.length = 4 → s.data.get? 2 = some c → c.isDigit = true →
      fudge_gender bd =
        some (some (if (c.toNat - 48) % 2 = 0 then "K" else "M"))) ∧
    (∀ bd : BirthDate, bd.suffix = none → fudge_gender bd = some none) ∧
    fudge_gender ⟨"1970", some "01", some "23", some "3285"⟩ = some (some "K") ∧
    fudge_gender ⟨"1970", some "01", some "23", some "0055"⟩ = some (some "M") := by
  refine ⟨?_, ?_, by decide, by decide⟩
  · intro bd s c hs _ hget hdig
    rw [List.get?_eq_getElem?] at hget
    simp [fudge_gender, hs, hget, hdig]
  · intro bd hs
    simp [fudge_gender, hs]

/-- Witness for C7: instantiating the general parity statement at the
concrete suffix `3285` (second-to-last digit `8`, even). -/
theorem C7_fudge_gender_parity_witness :
    fudge_gender ⟨"1970", some "01", some "23", some "3285"⟩ =
      some (some (if ('8'.toNat - 48) % 2 = 0 then "K" else "M")) :=
  C7_fudge_gender_parity.1 ⟨"1970", some "01", some "23", some "3285"⟩
    "3285" '8' rfl (by decide) (by decide) (by decide)

/-! ### C6: gender parsing -/

/-- C6 counterexample: the claim says `parse_gender` trims its input and
fails on every value outside the listed vocabularies (which exclude
`ANNAT`).  But the source does not trim — `' k'` upper-cases to `' K'`
and raises `ValueError` — and it maps `ANNAT` (and `VILL EJ UPPGE`) to
`None` rather than failing. -/
theorem C6_parse_gender_counterexample :
    parse_gender " k" = none ∧ parse_gender "Annat" = some none := by
  constructor <;> decide

/-- C6 (amended): `parse_gender` upper-cases its input (without
trimming) and matches it against fixed vocabularies:
{K, F, FEMALE, KVINNA, TJEJ} → Female; {M, MAN, MALE, KILLE} → Male;
{"", "?", "EJ SVAR", "ANNAT", "UPPGIFT OKÄND", "VILL EJ UPPGE"} →
Unknown; every other value fails with `ValueError` (`none`). -/
theorem C6_parse_gender_amended :
    (∀ t, (pyUpper t = "K" ∨ pyUpper t = "F" ∨ pyUpper t = "FEMALE" ∨
        pyUpper t = "KVINNA" ∨ pyUpper t = "TJEJ") →
      parse_gender t = some (some "K")) ∧
    (∀ t, (pyUpper t = "M" ∨ pyUpper t = "MAN" ∨ pyUpper t = "MALE" ∨
        pyUpper t = "KILLE") →
      parse_gender t = some (some "M")) ∧
    (∀ t, (pyUpper t = "" ∨ pyUpper t = "?" ∨ pyUpper t = "EJ SVAR" ∨
        pyUpper t = "ANNAT" ∨ pyUpper t = "UPPGIFT OKÄND" ∨
        pyUpper t = "VILL EJ UPPGE") →
      parse_gender t = some none) ∧
    (∀ t, ¬(pyUpper t = "K" ∨ pyUpper t = "F" ∨ pyUpper t = "FEMALE" ∨
        pyUpper t = "KVINNA" ∨ pyUpper t = "TJEJ") →
      ¬(pyUpper t = "M" ∨ pyUpper t = "MAN" ∨ pyUpper t = "MALE" ∨
        pyUpper t = "KILLE") →
      ¬(pyUpper t = "" ∨ pyUpper t = "?" ∨ pyUpper t = "EJ SVAR" ∨
        pyUpper t = "ANNAT" ∨ pyUpper t = "UPPGIFT OKÄND" ∨
        pyUpper t = "VILL EJ UPPGE") →
      parse_gender t = none) := by
  refine ⟨?_, ?_, ?_, ?_⟩
  · intro t h
    rcases h with h | h | h | h | h <;> simp [parse_gender, h]
  · intro t h
    rcases h with h | h | h | h <;> simp [parse_gender, h]
  · intro t h
    rcases h with h | h | h | h | h | h <;> simp [parse_gender, h]
  · intro t h1 h2 h3
    simp only [parse_gender]
    rw [if_neg h1, if_neg h2, if_neg h3]

/-- Witness for C6 (amended): concrete instantiations of each vocabulary
branch and of the failure branch. -/
theorem C6_parse_gender_amended_witness :
    parse_gender "Kvinna" = some (some "K") ∧
    parse_gender "kille" = some (some "M") ∧
    parse_gender "vill ej uppge" = some none ∧
    parse_gender "WAT" = none :=
  ⟨C6_parse_gender_amended.1 "Kvinna" (by decide),
   C6_parse_gender_amended.2.1 "kille" (by decide),
   C6_parse_gender_amended.2.2.1 "vill ej uppge" (by decide),
   C6_parse_gender_amended.2.2.2 "WAT" (by decide) (by decide) (by decide)⟩

/-! ### Birth-date parsing on its canonical shapes -/

theorem not_sentinel_of_long {t : String} (h : 2 ≤ t.data.length) :
    ¬(t = "" ∨ t = "?" ∨ t = "0") := by
  rintro (he | he | he) <;> (rw [he] at h; exact absurd h (by decide))

theorem parse_birth_date_of_tryYearLen4 {text : String} {bd : BirthDate}
    (hlen : 2 ≤ text.data.length) (h : tryYearLen 4 text.data = some bd) :
    parse_birth_date text = some (some bd) := by
  simp only [parse_birth_date]
  rw [if_neg (not_sentinel_of_long hlen), h]

theorem parse_year_len4 {y : String} (h : y.data.length = 4) :
    parse_year y = y := by
  have hl : y.length ≠ 2 := by
    show y.data.length ≠ 2
    omega
  simp [parse_year, hl]

theorem takeDigits_exact_of {n : Nat} {l : List Char} (rest : List Char)
    (hlen : l.length = n) (hd : ∀ c ∈ l, c.isDigit = true) :
    takeDigits n (l ++ rest) = some (l, rest) := by
  have h0 := takeDigits_exact l rest hd
  rw [hlen] at h0
  exact h0

theorem takeDigits_all {l : List Char} {n : Nat} (hlen : l.length = n)
    (hd : ∀ c ∈ l, c.isDigit = true) : takeDigits n l = some (l, []) := by
  have h0 := takeDigits_exact_of [] hlen hd
  rw [List.append_nil] at h0
  exact h0

theorem matchMD_sep {m dd : List Char} (rest : List Char)
    (hm2 : m.length = 2) (hmd : ∀ c ∈ m, c.isDigit = true)
    (hd2 : dd.length = 2) (hdd : ∀ c ∈ dd, c.isDigit = true) :
    matchMD ('-' :: (m ++ '-' :: (dd ++ rest))) = some (m, dd, rest) := by
  unfold matchMD
  rw [skipSep_dash, takeDigits_exact_of ('-' :: (dd ++ rest)) hm2 hmd]
  simp only [Option.some_bind]
  rw [skipSep_dash, takeDigits_exact_of rest hd2 hdd]
  simp

theorem matchSuffixEnd_sep {s : List Char} (hs4 : s.length = 4)
    (hsd : ∀ c ∈ s, c.isDigit = true) : matchSuffixEnd ('-' :: s) = some s := by
  unfold matchSuffixEnd
  rw [skipSep_dash, takeDigits_all hs4 hsd]
  simp

theorem matchTail_nil : matchTail [] = some (none, none, none) := rfl

theorem matchTail_md_only {m dd : List Char}
    (hm2 : m.length = 2) (hmd : ∀ c ∈ m, c.isDigit = true)
    (hd2 : dd.length = 2) (hdd : ∀ c ∈ dd, c.isDigit = true) :
    matchTail ('-' :: (m ++ '-' :: dd)) = some (some m, some dd, none) := by
  have h := matchMD_sep [] hm2 hmd hd2 hdd
  rw [List.append_nil] at h
  simp [matchTail, h, matchSuffixEnd, skipSep, takeDigits]

theorem matchTail_mds {m dd s : List Char}
    (hm2 : m.length = 2) (hmd : ∀ c ∈ m, c.isDigit = true)
    (hd2 : dd.length = 2) (hdd : ∀ c ∈ dd, c.isDigit = true)
    (hs4 : s.length = 4) (hsd : ∀ c ∈ s, c.isDigit = true) :
    matchTail ('-' :: (m ++ '-' :: (dd ++ '-' :: s))) =
      some (some m, some dd, some s) := by
  simp [matchTail, matchMD_sep ('-' :: s) hm2 hmd hd2 hdd,
    matchSuffixEnd_sep hs4 hsd]

theorem tryYearLen_year_only {y : String} (hy : DigitStr 4 y) :
    tryYearLen 4 y.data = some ⟨y, none, none, none⟩ := by
  unfold tryYearLen
  rw [takeDigits_all hy.1 hy.2]
  simp only [Option.some_bind, matchTail_nil, Option.map_some']
  simp [show String.mk y.data = y from rfl, parse_year_len4 hy.1]

theorem tryYearLen_ymd {y m dd : String} (hy : DigitStr 4 y)
    (hm : DigitStr 2 m) (hd : DigitStr 2 dd) :
    tryYearLen 4 (y.data ++ '-' :: (m.data ++ '-' :: dd.data)) =
      some ⟨y, some m, some dd, none⟩ := by
  unfold tryYearLen
  rw [takeDigits_exact_of ('-' :: (m.data ++ '-' :: dd.data)) hy.1 hy.2]
  simp only [Option.some_bind]
  rw [matchTail_md_only hm.1 hm.2 hd.1 hd.2]
  simp [show String.mk y.data = y from rfl, show String.mk m.data = m from rfl,
    show String.mk dd.data = dd from rfl, parse_year_len4 hy.1]

theorem tryYearLen_ymds {y m dd s : String} (hy : DigitStr 4 y)
    (hm : DigitStr 2 m) (hd : DigitStr 2 dd) (hs : DigitStr 4 s) :
    tryYearLen 4 (y.data ++ '-' :: (m.data ++ '-' :: (dd.data ++ '-' :: s.data))) =
      some ⟨y, some m, some dd, some s⟩ := by
  unfold tryYearLen
  rw [takeDigits_exact_of ('-' :: (m.data ++ '-' :: (dd.data ++ '-' :: s.data)))
    hy.1 hy.2]
  simp only [Option.some_bind]
  rw [matchTail_mds hm.1 hm.2 hd.1 hd.2 hs.1 hs.2]
  simp [show String.mk y.data = y from rfl, show String.mk m.data = m from rfl,
    show String.mk dd.data = dd from rfl, show String.mk s.data = s from rfl,
    parse_year_len4 hy.1]

theorem format_data_ymd (y m dd : String) :
    (y ++ "-" ++ m ++ "-" ++ dd).data =
      y.data ++ '-' :: (m.data ++ '-' :: dd.data) := by
  simp [String.data_append, show ("-" : String).data = ['-'] from rfl]

theorem format_data_ymds (y m dd s : String) :
    (y ++ "-" ++ m ++ "-" ++ dd ++ "-" ++ s).data =
      y.data ++ '-' :: (m.data ++ '-' :: (dd.data ++ '-' :: s.data)) := by
  simp [String.data_append, show ("-" : String).data = ['-'] from rfl]

/-! ### C4: parse∘format round trip on canonical shapes -/

/-- C4: for every canonical birth-date value of the shapes year-only,
year+month+day and year+month+day+suffix (4-digit year, 2-digit month
and day, 4-digit suffix), parsing the text produced by
`format_birth_date` yields the same tuple back. -/
theorem C4_parse_format_birth_date_roundtrip (bd : BirthDate)
    (h : CanonicalBD bd) :
    parse_birth_date (format_birth_date (some bd)) = some (some bd) := by
  obtain ⟨hy, hrest⟩ := h
  obtain ⟨y, mo, da, su⟩ := bd
  simp only at hy
  rcases hrest with ⟨hm, hd, hs⟩ | ⟨m, dd, hm, hd, hm2, hd2, hsuf⟩ <;>
    simp only at hm hd
  · subst hm hd
    simp only at hs
    subst hs
    have hfmt : format_birth_date (some ⟨y, none, none, none⟩) = y := by
      simp [format_birth_date]
    rw [hfmt]
    exact parse_birth_date_of_tryYearLen4 (by have := hy.1; omega)
      (tryYearLen_year_only hy)
  · subst hm hd
    rcases hsuf with hs | ⟨s, hs, hs4⟩ <;> simp only at hs <;> subst hs
    · have hfmt : format_birth_date (some ⟨y, some m, some dd, none⟩) =
          y ++ "-" ++ m ++ "-" ++ dd := by
        simp [format_birth_date, pyStr]
      rw [hfmt]
      refine parse_birth_date_of_tryYearLen4 ?_ ?_
      · rw [format_data_ymd]
        simp [List.length_append]
        omega
      · rw [format_data_ymd]
        exact tryYearLen_ymd hy hm2 hd2
    · have hfmt : format_birth_date (some ⟨y, some m, some dd, some s⟩) =
          y ++ "-" ++ m ++ "-" ++ dd ++ "-" ++ s := by
        simp [format_birth_date, pyStr]
      rw [hfmt]
      refine parse_birth_date_of_tryYearLen4 ?_ ?_
      · rw [format_data_ymds]
        simp [List.length_append]
        omega
      · rw [format_data_ymds]
        exact tryYearLen_ymds hy hm2 hd2 hs4

/-- Witness for C4: the round trip at the concrete canonical value
`('1995', '10', '14', '3856')`. -/
theorem C4_parse_format_birth_date_roundtrip_witness :
    parse_birth_date
        (format_birth_date (some ⟨"1995", some "10", some "14", some "3856"⟩)) =
      some (some ⟨"1995", some "10", some "14", some "3856"⟩) :=
  C4_parse_format_birth_date_roundtrip ⟨"1995", some "10", some "14", some "3856"⟩
    ⟨by decide, Or.inr ⟨"10", "14", rfl, rfl, by decide, by decide,
      Or.inr ⟨"3856", rfl, by decide⟩⟩⟩

/-! ### C3 (amended): all-zero trailing groups are preserved verbatim -/

theorem tryYearLen_y0000 {y : String} (hy : DigitStr 4 y) :
    tryYearLen 4 (y.data ++ ['0', '0', '0', '0']) =
      some ⟨y, some "00", some "00", none⟩ := by
  unfold tryYearLen
  rw [takeDigits_exact_of ['0', '0', '0', '0'] hy.1 hy.2]
  simp only [Option.some_bind]
  have hmt : matchTail ['0', '0', '0', '0'] =
      some (some ['0', '0'], some ['0', '0'], none) := by decide
  rw [hmt]
  simp [show String.mk ['0', '0'] = "00" from rfl,
    show String.mk y.data = y from rfl, parse_year_len4 hy.1]

/-- C3 (amended): `parse_birth_date` preserves trailing all-zero groups
verbatim instead of treating them as absent: appending the suffix
`-0000` to a full date yields the tuple with suffix `'0000'` (not the
suffix-free tuple), and an all-zero month/day pair is kept as month
`'00'` and day `'00'` (not collapsed to a year-only tuple). -/
theorem C3_parse_birth_date_zero_groups_amended (y m dd : String)
    (hy : DigitStr 4 y) (hm : DigitStr 2 m) (hd : DigitStr 2 dd) :
    parse_birth_date (y ++ "-" ++ m ++ "-" ++ dd ++ "-0000") =
      some (some ⟨y, some m, some dd, some "0000"⟩) ∧
    parse_birth_date (y ++ "0000") = some (some ⟨y, some "00", some "00", none⟩) := by
  constructor
  · have hdata : (y ++ "-" ++ m ++ "-" ++ dd ++ "-0000").data =
        y.data ++ '-' :: (m.data ++ '-' :: (dd.data ++ '-' :: ("0000" : String).data)) := by
      simp [String.data_append,
        show ("-0000" : String).data = '-' :: ("0000" : String).data from rfl,
        show ("-" : String).data = ['-'] from rfl]
    refine parse_birth_date_of_tryYearLen4 ?_ ?_
    · rw [hdata]; simp [List.length_append]; omega
    · rw [hdata]; exact tryYearLen_ymds hy hm hd (by decide)
  · have hdata : (y ++ "0000").data = y.data ++ ['0', '0', '0', '0'] := by
      simp [String.data_append, show ("0000" : String).data = ['0', '0', '0', '0'] from rfl]
    refine parse_birth_date_of_tryYearLen4 ?_ ?_
    · rw [hdata]; simp [List.length_append]
    · rw [hdata]; exact tryYearLen_y0000 hy

/-- Witness for C3 (amended): the preserved zero groups at the concrete
date `1995-10-14`. -/
theorem C3_parse_birth_date_zero_groups_amended_witness :
    parse_birth_date "1995-10-14-0000" =
      some (some ⟨"1995", some "10", some "14", some "0000"⟩) ∧
    parse_birth_date "19950000" =
      some (some ⟨"1995", some "00", some "00", none⟩) := by
  have h := C3_parse_birth_date_zero_groups_amended "1995" "10" "14"
    (by decide) (by decide) (by decide)
  exact ⟨h.1, h.2⟩

/-! ### C5: postal-code normalization -/

/-- C5: after lower-casing and stripping internal spaces (`normText`),
`normalize_postal_code` maps the sentinels `''`, `'-'`, `'saknas'`,
`'vetej'` and anything starting with `'skyddad'` to absent; accepts
`"123 45 Stockholm"` as `"12345"`; on every other text it returns the
leading five digits when the text starts with five digits and fails
with `ValueError` (`none`) when it does not. -/
theorem C5_normalize_postal_code_spec :
    (∀ text, PostalSentinel (normText text) →
      normalize_postal_code text = some none) ∧
    normalize_postal_code "123 45 Stockholm" = some (some "12345") ∧
    (∀ text, ¬PostalSentinel (normText text) →
      ¬StartsWithDigits 5 (normText text) →
      normalize_postal_code text = none) ∧
    (∀ text, ¬PostalSentinel (normText text) →
      StartsWithDigits 5 (normText text) →
      normalize_postal_code text =
        some (some (String.mk ((normText text).data.take 5)))) := by
  refine ⟨?_, by decide, ?_, ?_⟩
  · intro text h
    rcases h with h | h | h | h | h
    · simp [normalize_postal_code, h]
    · simp [normalize_postal_code, h]
    · simp [normalize_postal_code, h]
    · simp [normalize_postal_code, h]
    · have hlen : 7 ≤ (normText text).data.length := by
        have hpre := List.isPrefixOf_iff_prefix.mp h
        simpa using hpre.length_le
      have hne : ¬(normText text = "" ∨ normText text = "-" ∨
          normText text = "saknas" ∨ normText text = "vetej") := by
        rintro (he | he | he | he) <;>
          · rw [he] at hlen; simp at hlen
      simp only [normalize_postal_code]
      rw [if_neg hne, if_pos h]
  · intro text h1 h2
    have hne : ¬(normText text = "" ∨ normText text = "-" ∨
        normText text = "saknas" ∨ normText text = "vetej") := by
      rintro he
      exact h1 (by rcases he with he | he | he | he <;>
        simp [PostalSentinel, he])
    have hsky : ¬("skyddad".data.isPrefixOf (normText text).data = true) := by
      intro he
      exact h1 (Or.inr (Or.inr (Or.inr (Or.inr he))))
    have hnone : takeDigits 5 (normText text).data = none :=
      takeDigits_none (by simpa [StartsWithDigits] using h2)
    simp only [normalize_postal_code]
    rw [if_neg hne, if_neg hsky, hnone]
  · intro text h1 h2
    have hne : ¬(normText text = "" ∨ normText text = "-" ∨
        normText text = "saknas" ∨ normText text = "vetej") := by
      rintro he
      exact h1 (by rcases he with he | he | he | he <;>
        simp [PostalSentinel, he])
    have hsky : ¬("skyddad".data.isPrefixOf (normText text).data = true) := by
      intro he
      exact h1 (Or.inr (Or.inr (Or.inr (Or.inr he))))
    have hsome := takeDigits_of_start h2.1 h2.2
    simp only [normalize_postal_code]
    rw [if_neg hne, if_neg hsky, hsome]

/-- Witness for C5: the sentinel branch at `'Saknas '`, the failure
branch at `'1234'` (only four digits) and at `'abc12'`, instantiated
from the general statement. -/
theorem C5_normalize_postal_code_spec_witness :
    normalize_postal_code "Saknas " = some none ∧
    normalize_postal_code "1234" = none ∧
    normalize_postal_code "abc12" = none :=
  ⟨C5_normalize_postal_code_spec.1 "Saknas " (by decide),
   C5_normalize_postal_code_spec.2.2.1 "1234" (by decide) (by decide),
   C5_normalize_postal_code_spec.2.2.1 "abc12" (by decide) (by decide)⟩

/-! ### C2: the validator -/

theorem remove_invalid_foldl (rows : List Record) (acc : List Record × List Record) :
    rows.foldl
        (fun acc r =>
          match removalCause r with
          | none => (acc.1 ++ [r], acc.2)
          | some why => (acc.1, acc.2 ++ [{ r with removal_cause := some why }]))
        acc =
      (acc.1 ++ rows.filter (fun r => (removalCause r).isNone),
        acc.2 ++ (rows.filter fun r => (removalCause r).isSome).map
          (fun r => { r with removal_cause := removalCause r })) := by
  induction rows generalizing acc with
  | nil => simp
  | cons r rest ih =>
    cases hc : removalCause r with
    | none =>
      simp only [List.foldl_cons, hc, ih, List.filter_cons]
      simp [hc, List.append_assoc]
    | some why =>
      simp only [List.foldl_cons, hc, ih, List.filter_cons]
      simp [hc, List.append_assoc]

/-- C2: the validator rejects each record for exactly the first matching
reason in the source's priority order (confirmation date absent; its
year not the reporting year; birth date absent; gender unknown; postal
code absent; no contact information), setting `removal_cause` to the
stable reason string; records passing all checks are kept unmodified;
relative input order is preserved within both partitions; and a record
missing both the confirmation date and the gender is rejected with the
confirmation-date reason. -/
theorem C2_remove_invalid_spec (rows : List Record) :
    remove_invalid rows =
      (rows.filter fun r => (removalCause r).isNone,
        (rows.filter fun r => (removalCause r).isSome).map
          fun r => { r with removal_cause := removalCause r }) ∧
    (∀ r : Record, removalCause r = firstFailedCheck r) ∧
    (∀ r : Record, r.confirmed_membership_at = none → r.gender = none →
      removalCause r = some "confirmed_membership_at not given") := by
  refine ⟨?_, ?_, ?_⟩
  · have h := remove_invalid_foldl rows ([], [])
    simpa [remove_invalid] using h
  · intro r
    cases hc : r.confirmed_membership_at with
    | none => simp [removalCause, firstFailedCheck, validatorChecks, hc]
    | some c =>
      by_cases h2 : c.year = REPORTING_YEAR
      · by_cases h3 : r.birth_date = none
        · simp [removalCause, firstFailedCheck, validatorChecks, hc, h2, h3]
        · by_cases h4 : r.gender = none
          · simp [removalCause, firstFailedCheck, validatorChecks, hc, h2, h3, h4]
          · by_cases h5 : r.address_postal_code = none
            · simp [removalCause, firstFailedCheck, validatorChecks, hc, h2, h3, h4, h5]
            · by_cases h6 : r.email = ""
              · by_cases h7 : r.phone = ""
                · simp [removalCause, firstFailedCheck, validatorChecks,
                    hc, h2, h3, h4, h5, h6, h7]
                · simp [removalCause, firstFailedCheck, validatorChecks,
                    hc, h2, h3, h4, h5, h6, h7]
              · simp [removalCause, firstFailedCheck, validatorChecks,
                  hc, h2, h3, h4, h5, h6]
      · simp [removalCause, firstFailedCheck, validatorChecks, hc, h2]
  · intro r h1 _
    simp [removalCause, h1]

/-- Witness for C2: the validator priority at a concrete record missing
both the confirmation date and the gender, and the partition at the
concrete two-record list. -/
theorem C2_remove_invalid_spec_witness :
    removalCause recNoConfNoGender = some "confirmed_membership_at not given" ∧
    remove_invalid [recNoConfNoGender] =
      ([], [{ recNoConfNoGender with
        removal_cause := some "confirmed_membership_at not given" }]) := by
  constructor
  · exact (C2_remove_invalid_spec []).2.2 recNoConfNoGender rfl rfl
  · rw [(C2_remove_invalid_spec [recNoConfNoGender]).1]
    decide

/-! ### C9: grant eligibility -/

/-- C9: for every reporting year and record whose birth year does not
exceed the reporting year and whose postal code is present,
`is_eligable_for_grant` returns `true` exactly when the age
(reporting year minus birth year) is between 6 and 25 inclusive and the
postal code's first character is `'1'`; concretely for 2016: postal
`14231` with birth year 2010 is eligible, `98212`/2010 is out of
region, `14231`/1990 is too old. -/
theorem C9_is_eligable_for_grant_spec :
    (∀ (ry : Nat) (r : Record) (bd : BirthDate) (pc : String),
      r.birth_date = some bd → r.address_postal_code = some pc →
      toNatDigits bd.year ≤ ry →
      (is_eligable_for_grant ry r = some true ↔
        (6 ≤ ry - toNatDigits bd.year ∧ ry - toNatDigits bd.year ≤ 25 ∧
          pc.data.head? = some '1'))) ∧
    is_eligable_for_grant 2016 (grantRow "14231" "2010") = some true ∧
    is_eligable_for_grant 2016 (grantRow "98212" "2010") = some false ∧
    is_eligable_for_grant 2016 (grantRow "14231" "1990") = some false := by
  refine ⟨?_, by decide, by decide, by decide⟩
  intro ry r bd pc hbd hpc hle
  have hneg : ¬((ry : Int) - (toNatDigits bd.year : Int) < 0) := by omega
  have hage : calculate_age ry r = some (ry - toNatDigits bd.year) := by
    simp [calculate_age, hbd, hneg]
    omega
  have hsplit : is_eligable_for_grant ry r =
      if 6 ≤ ry - toNatDigits bd.year ∧ ry - toNatDigits bd.year ≤ 25 then
        resides_in_stockholm r
      else some false := by
    simp [is_eligable_for_grant, hage]
  rw [hsplit]
  by_cases hin : 6 ≤ ry - toNatDigits bd.year ∧ ry - toNatDigits bd.year ≤ 25
  · rw [if_pos hin]
    cases hl : pc.data with
    | nil => simp [resides_in_stockholm, hpc, hl, hin]
    | cons c cs => simp [resides_in_stockholm, hpc, hl, hin]
  · rw [if_neg hin]
    simp only [show (some false = some true) = False by simp, false_iff]
    intro hcon
    exact hin ⟨hcon.1, hcon.2.1⟩

/-- Witness for C9: the general equivalence instantiated at the
concrete eligible record (2016, postal `14231`, birth year 2010). -/
theorem C9_is_eligable_for_grant_spec_witness :
    is_eligable_for_grant 2016 (grantRow "14231" "2010") = some true ↔
      (6 ≤ 2016 - toNatDigits "2010" ∧ 2016 - toNatDigits "2010" ≤ 25 ∧
        ("14231" : String).data.head? = some '1') :=
  C9_is_eligable_for_grant_spec.1 2016 (grantRow "14231" "2010")
    ⟨"2010", none, none, none⟩ "14231" rfl rfl (by decide)

/-! ### C8: groups contain each label at most once -/

/-- C8 counterexample: the claim says every record produced by the
loader has duplicate-free groups, but `parse_groups` splits the raw
text verbatim, so the raw groups column `'A;A'` loads as the list
`['A', 'A']`. -/
theorem C8_loader_groups_counterexample :
    (loadRow c8row none).map Record.groups = some ["A", "A"] ∧
    ¬(["A", "A"] : List String).Nodup := by
  constructor
  · decide
  · decide

theorem nodup_seenInsert {acc : List String} (x : String) (h : acc.Nodup) :
    (seenInsert acc x).Nodup := by
  unfold seenInsert
  by_cases hx : x ∈ acc
  · simpa [hx]
  · simp [hx, List.nodup_append, h]

theorem nodup_foldl_seenInsert (l : List String) {acc : List String}
    (h : acc.Nodup) : (l.foldl seenInsert acc).Nodup := by
  induction l generalizing acc with
  | nil => simpa
  | cons a l2 ih => exact ih (nodup_seenInsert a h)

theorem collectGroups_nodup (member : List Record) :
    (collectGroups member).Nodup := by
  unfold collectGroups
  generalize hacc : ([] : List String) = acc
  have hnd : acc.Nodup := by rw [← hacc]; exact List.nodup_nil
  clear hacc
  induction member generalizing acc with
  | nil => simpa
  | cons r rest ih => exact ih _ (nodup_foldl_seenInsert r.groups hnd)

/-- C8 (amended): every unique record produced by `remove_duplicates`
has a groups list containing each label at most once; the loader gives
no such guarantee (`parse_groups` copies the raw list verbatim, see the
counterexample). -/
theorem C8_merge_groups_nodup_amended (rows u d : List Record)
    (h : remove_duplicates rows = some (u, d)) :
    ∀ r ∈ u, r.groups.Nodup := by
  unfold remove_duplicates at h
  cases hb : buildGroups [] rows with
  | none => rw [hb] at h; simp at h
  | some pairs =>
    rw [hb] at h
    simp only [Option.map_some'] at h
    injection h with h2
    have hu : u = pairs.filterMap fun p =>
        p.2.head?.map fun first => { first with groups := collectGroups p.2 } :=
      (congrArg Prod.fst h2).symm
    intro r hr
    rw [hu] at hr
    obtain ⟨p, _, hp⟩ := List.mem_filterMap.mp hr
    obtain ⟨first, _, hfirst⟩ := Option.map_eq_some'.mp hp
    rw [← hfirst]
    exact collectGroups_nodup p.2

/-- Witness for C8 (amended): the merged unique record of the concrete
duplicate pair has duplicate-free groups. -/
theorem C8_merge_groups_nodup_amended_witness :
    (({ dupA with groups := ["A", "B"] } : Record)).groups.Nodup :=
  C8_merge_groups_nodup_amended [dupA, dupB]
    [{ dupA with groups := ["A", "B"] }] [dupA, dupB] (by decide)
    { dupA with groups := ["A", "B"] } (by decide)

/-! ### C1: the duplicate merge -/

theorem mem_seenInsert {x a : String} (acc : List String) :
    x ∈ seenInsert acc a ↔ x ∈ acc ∨ x = a := by
  unfold seenInsert
  by_cases h : a ∈ acc
  · rw [if_pos h]
    constructor
    · exact Or.inl
    · rintro (hx | rfl)
      · exact hx
      · exact h
  · rw [if_neg h]
    simp

theorem mem_foldl_seenInsert {x : String} (l acc : List String) :
    x ∈ l.foldl seenInsert acc ↔ x ∈ acc ∨ x ∈ l := by
  induction l generalizing acc with
  | nil => simp
  | cons a l2 ih =>
    rw [List.foldl_cons, ih, mem_seenInsert]
    simp [or_assoc]

theorem mem_firstSeen {x : String} (l : List String) :
    x ∈ firstSeen l ↔ x ∈ l := by
  unfold firstSeen
  rw [mem_foldl_seenInsert]
  simp

theorem firstSeen_nodup (l : List String) : (firstSeen l).Nodup :=
  nodup_foldl_seenInsert l List.nodup_nil

theorem firstSeen_append_single (K : List String) (kr : String) :
    firstSeen (K ++ [kr]) = seenInsert (firstSeen K) kr := by
  unfold firstSeen
  rw [List.foldl_append]
  rfl

theorem groupInsert_mapform (L : List String) (hnd : L.Nodup)
    (F : String → List Record) (kr : String) (r : Record)
    (hkr : kr ∉ L → F kr = []) :
    groupInsert (L.map fun k => (k, F k)) kr r =
      (seenInsert L kr).map fun k => (k, if k = kr then F k ++ [r] else F k) := by
  induction L with
  | nil =>
    simp [groupInsert, seenInsert, hkr (by simp)]
  | cons c L2 ih =>
    have hndc : c ∉ L2 := (List.nodup_cons.mp hnd).1
    have hnd2 : L2.Nodup := (List.nodup_cons.mp hnd).2
    by_cases hc : c = kr
    · subst hc
      rw [List.map_cons]
      have h1 : groupInsert ((c, F c) :: L2.map fun k => (k, F k)) c r
          = (c, F c ++ [r]) :: L2.map (fun k => (k, F k)) := by
        simp [groupInsert]
      have h2 : seenInsert (c :: L2) c = c :: L2 := by
        simp [seenInsert]
      rw [h1, h2, List.map_cons]
      have h3 : (if c = c then F c ++ [r] else F c) = F c ++ [r] := by simp
      rw [h3]
      congr 1
      apply List.map_congr_left
      intro k hk
      have hkc : ¬k = c := fun he => hndc (he ▸ hk)
      simp [hkc]
    · have hio : kr ∉ L2 → F kr = [] := fun hn =>
        hkr (by simp [hc, hn]; exact fun he => absurd he.symm hc)
      have ih2 := ih hnd2 hio
      simp only [List.map_cons, groupInsert, if_neg hc, ih2]
      by_cases hmem : kr ∈ L2
      · have hmem2 : kr ∈ c :: L2 := List.mem_cons_of_mem c hmem
        simp only [seenInsert, if_pos hmem, if_pos hmem2, List.map_cons]
        have : ¬c = kr := hc
        simp [this]
      · have hmem2 : kr ∉ c :: L2 := by
          simp [hmem]
          exact fun he => absurd he.symm hc
        simp only [seenInsert, if_neg hmem, if_neg hmem2, List.cons_append,
          List.map_cons]
        have : ¬c = kr := hc
        simp [this]

theorem buildGroups_invariant (rows : List Record)
    (htot : ∀ r ∈ rows, (make_key r).isSome)
    (K : List String) (F : String → List Record)
    (hF : ∀ k, k ∉ K → F k = []) :
    buildGroups ((firstSeen K).map fun k => (k, F k)) rows =
      some ((firstSeen (K ++ rows.filterMap make_key)).map
        fun k => (k, F k ++ rows.filter fun r => make_key r = some k)) := by
  induction rows generalizing K F with
  | nil => simp [buildGroups]
  | cons r rest ih =>
    obtain ⟨kr, hkr⟩ :=
      Option.isSome_iff_exists.mp (htot r (List.mem_cons_self r rest))
    have hgi := groupInsert_mapform (firstSeen K) (firstSeen_nodup K) F kr r
      (fun hn => hF kr fun hk => hn ((mem_firstSeen K).mpr hk))
    have hstep : buildGroups ((firstSeen K).map fun k => (k, F k)) (r :: rest)
        = buildGroups (groupInsert ((firstSeen K).map fun k => (k, F k)) kr r)
            rest := by
      simp [buildGroups, hkr]
    rw [hstep, hgi, ← firstSeen_append_single]
    have ih2 := ih (fun x hx => htot x (List.mem_cons_of_mem r hx))
      (K ++ [kr]) (fun k => if k = kr then F k ++ [r] else F k)
      (fun k hk => by
        have hk1 : k ∉ K := fun hin => hk (by simp [hin])
        have hk2 : ¬k = kr := fun hin => hk (by simp [hin])
        simp [hk2, hF k hk1])
    rw [ih2]
    have hkeys : (K ++ [kr]) ++ rest.filterMap make_key
        = K ++ (r :: rest).filterMap make_key := by
      simp [List.filterMap_cons, hkr]
    rw [hkeys]
    congr 1
    apply List.map_congr_left
    intro k _
    by_cases hkkr : k = kr
    · subst hkkr
      have hpr : make_key r = some k := hkr
      simp [List.filter_cons, hpr]
    · have hpr : ¬(make_key r = some k) := by
        rw [hkr]
        simp
        exact fun hin => hkkr hin.symm
      simp [List.filter_cons, hpr, hkkr]

theorem buildGroups_eq (rows : List Record)
    (htot : ∀ r ∈ rows, (make_key r).isSome) :
    buildGroups [] rows = some ((strictKeys rows).map fun k => (k, grp rows k)) := by
  have h := buildGroups_invariant rows htot [] (fun _ => []) (fun _ _ => rfl)
  simpa [strictKeys, grp, firstSeen] using h

theorem foldl_seenInsert_flatMap (member : List Record) (acc : List String) :
    (member.flatMap Record.groups).foldl seenInsert acc =
      member.foldl (fun gs single => single.groups.foldl seenInsert gs) acc := by
  induction member generalizing acc with
  | nil => rfl
  | cons r rest ih =>
    rw [List.flatMap_cons, List.foldl_append, ih]
    rfl

theorem collectGroups_eq_firstSeen (member : List Record) :
    collectGroups member = firstSeen (member.flatMap Record.groups) := by
  unfold collectGroups firstSeen
  rw [foldl_seenInsert_flatMap]

/-- C1: under the precondition that every record has a birth date (so
that the strict key is defined), `remove_duplicates` groups the records
by the strict key (folded accent-stripped names, birth-date components,
postal code); the unique output has, per key in first-seen order, the
first-encountered record of the group as sole representative with its
group list replaced by the union of the group's labels in first-seen
order with duplicates removed and no sorting; and every group with two
or more members contributes all of its members (representative
included) to the duplicates output. -/
theorem C1_merge_duplicates_spec (rows : List Record)
    (htot : ∀ r ∈ rows, (make_key r).isSome) :
    remove_duplicates rows = some (
      (strictKeys rows).filterMap fun k =>
        (grp rows k).head?.map fun first =>
          { first with groups := firstSeen ((grp rows k).flatMap Record.groups) },
      ((strictKeys rows).filter fun k => 1 < (grp rows k).length).flatMap
        (grp rows)) := by
  unfold remove_duplicates
  rw [buildGroups_eq rows htot]
  simp only [Option.map_some']
  congr 1
  refine Prod.ext ?_ ?_
  · show ((strictKeys rows).map fun k => (k, grp rows k)).filterMap _ = _
    rw [List.filterMap_map]
    apply List.filterMap_congr
    intro k _
    simp [Function.comp, collectGroups_eq_firstSeen]
  · show (((strictKeys rows).map fun k => (k, grp rows k)).filter _).flatMap _ = _
    rw [List.filter_map, List.flatMap_map]
    rfl

/-- Witness for C1: the concrete two-record example — identical strict
key, disjoint group lists `['A']` and `['B']` — merges into the
first-encountered record with groups `['A', 'B']`, and both original
records appear in the duplicates output. -/
theorem C1_merge_duplicates_spec_witness :
    remove_duplicates [dupA, dupB] =
      some ([{ dupA with groups := ["A", "B"] }], [dupA, dupB]) := by
  rw [C1_merge_duplicates_spec [dupA, dupB] (by decide)]
  decide

/-! ### C10: the deduplicator requires birth dates -/

theorem buildGroups_none_of_mem {rows : List Record} {r : Record}
    (h1 : r ∈ rows) (h2 : make_key r = none) (acc : List (String × List Record)) :
    buildGroups acc rows = none := by
  induction rows generalizing acc with
  | nil => cases h1
  | cons a rest ih =>
    rcases List.mem_cons.mp h1 with rfl | hmem
    · simp [buildGroups, h2]
    · cases hk : make_key a with
      | none => simp [buildGroups, hk]
      | some k => simp [buildGroups, hk]; exact ih hmem _

/-- C10: `remove_duplicates` is only defined when every input record has
a birth date: its key function indexes into the birth-date tuple, so it
is undefined (`none`) on a record with an absent birth date, and the
whole operation takes the error branch for every input collection
containing such a record. -/
theorem C10_remove_duplicates_needs_birth_date (rows : List Record)
    (r : Record) (h1 : r ∈ rows) (h2 : r.birth_date = none) :
    make_key r = none ∧ remove_duplicates rows = none := by
  have hk : make_key r = none := by simp [make_key, h2]
  exact ⟨hk, by simp [remove_duplicates, buildGroups_none_of_mem h1 hk]⟩

/-- Witness for C10: a concrete one-record collection whose record lacks
a birth date makes `remove_duplicates` fail. -/
theorem C10_remove_duplicates_needs_birth_date_witness :
    make_key recNoBirth = none ∧ remove_duplicates [recNoBirth] = none :=
  C10_remove_duplicates_needs_birth_date [recNoBirth] recNoBirth
    (List.mem_singleton.mpr rfl) rfl

/-! ### C3: all-zero trailing groups in birth dates -/

/-- C3 counterexample: the claim says a suffix of `0000` parses the same
as no suffix, and an all-zero day group parses the same as no day; in
the source the regex captures the zeros verbatim, so
`'1995-10-14-0000'` keeps its suffix and `'19950000'` keeps month and
day `00`. -/
theorem C3_parse_birth_date_counterexample :
    parse_birth_date "1995-10-14-0000" ≠ parse_birth_date "1995-10-14" ∧
    parse_birth_date "19950000" ≠ parse_birth_date "1995" ∧
    parse_birth_date "1995-10-14-0000" =
      some (some ⟨"1995", some "10", some "14", some "0000"⟩) ∧
    parse_birth_date "19950000" =
      some (some ⟨"1995", some "00", some "00", none⟩) := by
  refine ⟨by decide, by decide, by decide, by decide⟩

end Census
